import Mathlib

/-!
Shallow embedding of the conversation orchestrator in `src/chat.py` of the
greek-room-api repository: the module-level helpers `call_tool` and the
`ChatClient` class (`initialize`, `reset_conversation`, `initiate_chat`,
`execute_tool_calls`, `continue_conversation`, `chat`).

Modelling decisions, all taken from the source:
* Python dict-shaped chat messages become the `Message` structure; the fields
  are exactly the keys the code reads or writes (`role`, `content`,
  `tool_call_id`, `name`, `tool_calls`).
* The two remote dependencies (the PredictionGuard completion endpoint and the
  MCP tool server) are modelled as an `Oracle`: `llm n` is the outcome of the
  n-th `chat.completions.create` call made by the client, `net name args` is
  the outcome of the remote `mcp_client.call_tool` invocation (its payload
  already serialized to the string the code stores in history), and `discover`
  is the outcome of `generate_available_tools`.
* Python exceptions are the explicit `PyError` type; a function that can raise
  returns `Except PyError _`.  A caught exception is folded exactly where the
  source catches it.
* Network side effects of `call_tool` are recorded in a `NetEvent` list so
  that absence of network I/O is the provable statement `events = []`.
* The `logger.warning` that `chat` emits when `turn_count >= max_turns` is
  kept as the `warned` observable of `ChatOut`, and the way the `while` loop
  ends (the `break` on a tool-call-free reply versus the `turn_count <
  max_turns` condition failing) is kept as the `exitReason` observable.
* `json.loads` on LLM-provided tool-call arguments is assumed to succeed; the
  argument blob is carried opaquely as a string.  `file_name` is a parameter
  of `initiate_chat` that the source body never reads, so it is omitted.
-/

namespace GreekRoom

/-- Message roles used by `chat.py` ("system", "user", "assistant", "tool"). -/
inductive Role where
  | system
  | user
  | assistant
  | tool
deriving DecidableEq, Repr

/-- One tool call as found in an assistant message: `tool_call['id']` (absent
when the LLM omitted it, hence `Option`), `tool_call['function']['name']` and
`tool_call['function']['arguments']` (an opaque serialized blob). -/
structure ToolCall where
  id : Option String
  name : String
  arguments : String
deriving DecidableEq, Repr

/-- A conversation message: the dict shape `chat.py` appends to
`self.conversation_history`. -/
structure Message where
  role : Role
  content : Option String := none
  toolCallId : Option String := none
  name : Option String := none
  toolCalls : List ToolCall := []
deriving DecidableEq, Repr

/-- An LLM completion response; the code only ever reads `res['choices']` and
`res['choices'][0]['message']`, so a response is its list of choice
messages. -/
structure LLMResponse where
  choices : List Message
deriving DecidableEq, Repr

/-- The `function` sub-dict of a formatted tool schema
(`generate_available_tools` builds `{"type": "function", "name": ...,
"description": ..., "parameters": ...}`). -/
structure ToolFunction where
  name : String
  description : String
  parameters : String
deriving DecidableEq, Repr

/-- One entry of `available_tools`: the code reads only
`t['function']['name']`. -/
structure ToolSchema where
  function : ToolFunction
deriving DecidableEq, Repr

/-- Python exceptions that the modelled code raises or catches. -/
inductive PyError where
  | valueError (msg : String)
  | typeError (msg : String)
  | attributeError (msg : String)
  | indexError (msg : String)
  | completionError (msg : String)
  | toolError (msg : String)
  | discoveryError (msg : String)
deriving DecidableEq, Repr

/-- The `str(e)` rendering of an exception, as used by
`execute_tool_calls` when folding an error into history. -/
def pyErrStr : PyError → String
  | .valueError m => m
  | .typeError m => m
  | .attributeError m => m
  | .indexError m => m
  | .completionError m => m
  | .toolError m => m
  | .discoveryError m => m

/-- Network side effects of one `call_tool` invocation: constructing the
`MCPClient` connection and performing the remote call. -/
inductive NetEvent where
  | mcpConnect (url : String) (auth : Option String)
  | mcpCall (name : String) (args : String)
deriving DecidableEq, Repr

/-- Per-client configuration fixed at `ChatClient.__init__` time. -/
structure ChatConfig where
  mcpUrl : String
  authToken : Option String
  systemPrompt : String
deriving DecidableEq, Repr

/-- The mutable state of a `ChatClient`: `self.available_tools` (None until
`initialize` ran) and `self.conversation_history`. -/
structure ClientState where
  availableTools : Option (List ToolSchema)
  conversationHistory : List Message
deriving DecidableEq, Repr

/-- State of a freshly constructed `ChatClient`. -/
def freshState : ClientState := { availableTools := none, conversationHistory := [] }

/-- The two remote services, as deterministic oracles: `llm n` is the outcome
of the n-th completion call, `net name args` the outcome of a remote tool
invocation (payload pre-serialized), `discover` the outcome of
`generate_available_tools`. -/
structure Oracle where
  llm : Nat → Except String LLMResponse
  net : String → String → Except String String
  discover : Except String (List ToolSchema)

/-- The system-prompt message `{"role": "system", "content":
self.system_prompt}`. -/
def systemMessage (cfg : ChatConfig) : Message :=
  { role := .system, content := some cfg.systemPrompt }

/-- The user message `{"role": "user", "content": user_query}`. -/
def userMessage (q : Option String) : Message :=
  { role := .user, content := q }

/-- Python truthiness of `user_query` in `if user_query:` — `None` and the
empty string are falsy. -/
def userQueryTruthy : Option String → Bool
  | none => false
  | some q => !(q == "")

/-- The error message of the `ValueError` raised by `call_tool` for an
unknown tool name. -/
def toolNotFoundMsg (toolName : String) : String :=
  "Tool " ++ toolName ++ " not found on MCP server."

/-- Embedding of the module-level `call_tool(mcp_url, tool_name, tool_args,
available_tools, auth_token)`.  Looking up the name in `available_tools =
None` reproduces Python's `TypeError` from iterating `None`.  The source
binds `tool` to the found name string (or `None`) and checks `if not tool:`
— Python truthiness, so the `ValueError` fires both when the name is absent
and when the found name is the empty string — before any network event;
otherwise the remote call runs (its transport/remote errors re-raised as
`toolError`). -/
def call_tool (mcpUrl : String) (toolName : String) (toolArgs : String)
    (availableTools : Option (List ToolSchema)) (authToken : Option String)
    (net : String → String → Except String String) :
    Except PyError String × List NetEvent :=
  match availableTools with
  | none => (.error (.typeError "argument of type NoneType is not iterable"), [])
  | some ts =>
    match ts.find? (fun t => t.function.name == toolName) with
    | none => (.error (.valueError (toolNotFoundMsg toolName)), [])
    | some t =>
      if t.function.name == "" then
        (.error (.valueError (toolNotFoundMsg toolName)), [])
      else
        match net t.function.name toolArgs with
        | .ok r =>
            (.ok r, [.mcpConnect mcpUrl authToken, .mcpCall t.function.name toolArgs])
        | .error e =>
            (.error (.toolError e), [.mcpConnect mcpUrl authToken, .mcpCall t.function.name toolArgs])

/-- Embedding of `ChatClient.initialize`, under the Lean-side name
`initClient`: loads the tool list and, when the history is empty, seeds it
with the system prompt.  A discovery failure is re-raised. -/
def initClient (cfg : ChatConfig) (O : Oracle) (st : ClientState) :
    Except PyError ClientState :=
  match O.discover with
  | .error e => .error (.discoveryError e)
  | .ok ts =>
      .ok { availableTools := some ts,
            conversationHistory :=
              if st.conversationHistory.isEmpty then [systemMessage cfg]
              else st.conversationHistory }

/-- Embedding of `ChatClient.reset_conversation`: history becomes just the
system prompt. -/
def reset_conversation (cfg : ChatConfig) (st : ClientState) : ClientState :=
  { st with conversationHistory := [systemMessage cfg] }

/-- Output of `initiate_chat`: the returned value (`Sum.inl` is the caught
completion failure returned as the plain string
`"Error getting response from LLM: ..."`, `Sum.inr` the response dict), the
client state after the call, the completion-call counter, and the `messages`
list that was sent to the LLM backend. -/
structure InitiateOut where
  result : Sum String LLMResponse
  state : ClientState
  llmCalls : Nat
  sent : List Message
deriving DecidableEq, Repr

/-- Error-string prefix used by `initiate_chat`'s `except` branch. -/
def llmErrorString (e : String) : String :=
  "Error getting response from LLM: " ++ e

/-- Message of Python's `IndexError` on `res['choices'][0]` for an empty list. -/
def listIndexErrMsg : String := "list index out of range"

/-- Embedding of `ChatClient.initiate_chat(user_query, file_name,
use_history)`.  Ensures tools are loaded (re-raising a discovery failure),
appends the user message when the query is truthy, chooses the message list
to send from `use_history`, then performs the completion call: any exception
inside the `try` (the call itself, or indexing an empty `choices`) is caught
and returned as an error string, otherwise the first choice message is
appended to history and the response returned.  This completion phase is
the `initiateCore` definition; `initiate_chat` below adds the
tool-initialization step. -/
def initiateCore (cfg : ChatConfig) (O : Oracle) (st1 : ClientState) (k : Nat)
    (userQuery : Option String) (useHistory : Bool) : InitiateOut :=
  let st2 :=
    if userQueryTruthy userQuery then
      { st1 with conversationHistory := st1.conversationHistory ++ [userMessage userQuery] }
    else st1
  let messages :=
    if useHistory then st2.conversationHistory
    else [systemMessage cfg, userMessage userQuery]
  match O.llm k with
  | .error e => ⟨.inl (llmErrorString e), st2, k + 1, messages⟩
  | .ok res =>
    match res.choices with
    | [] => ⟨.inl (llmErrorString listIndexErrMsg), st2, k + 1, messages⟩
    | m :: _ =>
        ⟨.inr res,
         { st2 with conversationHistory := st2.conversationHistory ++ [m] },
         k + 1, messages⟩

/-- Embedding of `ChatClient.initiate_chat(user_query, file_name,
use_history)` as a whole: ensure tools are loaded, re-raising a discovery
failure, then run the completion phase `initiateCore`, which never raises. -/
def initiate_chat (cfg : ChatConfig) (O : Oracle) (st : ClientState) (k : Nat)
    (userQuery : Option String) (useHistory : Bool) : Except PyError InitiateOut :=
  match (if st.availableTools.isNone then initClient cfg O st else .ok st) with
  | .error e => .error e
  | .ok st1 => .ok (initiateCore cfg O st1 k userQuery useHistory)

/-- Output of `continue_conversation`. -/
structure ContinueOut where
  response : LLMResponse
  state : ClientState
  llmCalls : Nat
deriving DecidableEq, Repr

/-- Embedding of `ChatClient.continue_conversation`: a completion call over
the full history; on success the first choice message is appended, on failure
the exception is logged and re-raised. -/
def continue_conversation (_cfg : ChatConfig) (O : Oracle) (st : ClientState) (k : Nat) :
    Except PyError ContinueOut :=
  match O.llm k with
  | .error e => .error (.completionError e)
  | .ok res =>
    match res.choices with
    | [] => .error (.indexError listIndexErrMsg)
    | m :: _ =>
        .ok ⟨res, { st with conversationHistory := st.conversationHistory ++ [m] }, k + 1⟩

/-- Whether one tool execution succeeded (`'result'` key) or failed
(`'error'` key) in the `results` list of `execute_tool_calls`. -/
inductive ToolOutcome where
  | success (result : String)
  | failure (error : String)
deriving DecidableEq, Repr

/-- One entry of the `results` list built by `execute_tool_calls`. -/
structure ToolResultEntry where
  toolName : String
  args : String
  outcome : ToolOutcome
deriving DecidableEq, Repr

/-- The key of a tool message: `tool_call.get('id', f"call_{i}")`. -/
def toolCallIdKey (i : Nat) (tc : ToolCall) : String :=
  tc.id.getD ("call_" ++ toString i)

/-- Serialization of a successful remote result into history content
(`json.dumps(result.model_dump() ...)`); the oracle already returns the
serialized payload, so this is the identity on it. -/
def dumpToolResult (r : String) : String := r

/-- The history content `json.dumps({"error": str(e)})` of a failed call. -/
def jsonErrorContent (e : String) : String :=
  "\x7b\"error\": \"" ++ e ++ "\"\x7d"

/-- The tool message appended for the i-th tool call, with the given
content. -/
def toolMessage (i : Nat) (tc : ToolCall) (content : String) : Message :=
  { role := .tool, content := some content,
    toolCallId := some (toolCallIdKey i tc), name := some tc.name }

/-- One iteration of the `for i, tool_call in enumerate(tool_calls)` loop of
`execute_tool_calls`: run `call_tool`, and build the results entry and the
history message for either outcome. -/
def execOne (cfg : ChatConfig) (tools : Option (List ToolSchema))
    (net : String → String → Except String String) (i : Nat) (tc : ToolCall) :
    ToolResultEntry × Message × List NetEvent :=
  match call_tool cfg.mcpUrl tc.name tc.arguments tools cfg.authToken net with
  | (.ok r, evs) =>
      (⟨tc.name, tc.arguments, .success r⟩, toolMessage i tc (dumpToolResult r), evs)
  | (.error e, evs) =>
      (⟨tc.name, tc.arguments, .failure (pyErrStr e)⟩,
       toolMessage i tc (jsonErrorContent (pyErrStr e)), evs)

/-- The whole enumerate loop, starting at index `i`: lists of result entries,
appended history messages, and network events, in order. -/
def execLoop (cfg : ChatConfig) (tools : Option (List ToolSchema))
    (net : String → String → Except String String) :
    Nat → List ToolCall → List ToolResultEntry × List Message × List NetEvent
  | _, [] => ([], [], [])
  | i, tc :: rest =>
    let (r, m, ev) := execOne cfg tools net i tc
    let (rs, ms, evs) := execLoop cfg tools net (i + 1) rest
    (r :: rs, m :: ms, ev ++ evs)

/-- Output of `execute_tool_calls`: the returned `results` list, the client
state after the appends, and the network events performed. -/
structure ExecOut where
  results : List ToolResultEntry
  state : ClientState
  netEvents : List NetEvent
deriving DecidableEq, Repr

/-- Embedding of `ChatClient.execute_tool_calls(response)`: returns `[]`
untouched when the response has no choices or its first message has no tool
calls; otherwise executes every call in order, folding each success or error
into history (exceptions from `call_tool` are caught, never propagated). -/
def execute_tool_calls (cfg : ChatConfig)
    (net : String → String → Except String String)
    (st : ClientState) (response : LLMResponse) : ExecOut :=
  match response.choices with
  | [] => ⟨[], st, []⟩
  | m :: _ =>
    if m.toolCalls.isEmpty then ⟨[], st, []⟩
    else
      let (rs, ms, evs) := execLoop cfg st.availableTools net 0 m.toolCalls
      ⟨rs, { st with conversationHistory := st.conversationHistory ++ ms }, evs⟩

/-- The truthiness test `response.get('choices') and
response['choices'][0]['message'].get('tool_calls')` of the `while` loop. -/
def hasToolCalls (r : LLMResponse) : Bool :=
  match r.choices with
  | [] => false
  | m :: _ => !m.toolCalls.isEmpty

/-- How the `while turn_count < max_turns` loop of `chat` ended: by the
`break` on a tool-call-free reply, or by the loop condition failing. -/
inductive ExitReason where
  | noToolCalls
  | boundReached
deriving DecidableEq, Repr

/-- The dict returned by `chat`. -/
structure ChatResult where
  response : Sum String LLMResponse
  turns : Nat
  toolResults : List ToolResultEntry
  conversationHistory : List Message
deriving DecidableEq, Repr

/-- State of the `while` loop of `chat` at exit. -/
structure LoopOut where
  response : Sum String LLMResponse
  turns : Nat
  toolResults : List ToolResultEntry
  state : ClientState
  llmCalls : Nat
  exitReason : ExitReason
deriving DecidableEq, Repr

/-- The `AttributeError` message for `response.get` when `response` is the
error string returned by a failed `initiate_chat`. -/
def strGetMsg : String := "str object has no attribute get"

/-- The `while turn_count < max_turns` loop of `ChatClient.chat`, with
`fuel = max_turns - turn_count` as the structural measure (so `turns + fuel`
is constant along the loop).  Each iteration evaluates the guard
`response.get('choices') and ...` (an `AttributeError` when `response` is a
string), and either executes the tool calls, continues the conversation
(whose failure propagates) and recurses, or breaks. -/
def chatLoop (cfg : ChatConfig) (O : Oracle) :
    Nat → Sum String LLMResponse → ClientState → Nat → Nat → List ToolResultEntry →
    Except PyError LoopOut
  | 0, response, st, k, turns, acc => .ok ⟨response, turns, acc, st, k, .boundReached⟩
  | fuel + 1, response, st, k, turns, acc =>
    match response with
    | .inl _ => .error (.attributeError strGetMsg)
    | .inr res =>
      if hasToolCalls res then
        let ex := execute_tool_calls cfg O.net st res
        match continue_conversation cfg O ex.state k with
        | .error e => .error e
        | .ok c =>
            chatLoop cfg O fuel (.inr c.response) c.state c.llmCalls (turns + 1)
              (acc ++ ex.results)
      else .ok ⟨response, turns, acc, st, k, .noToolCalls⟩

/-- Output of `chat`: the returned dict, the `warned` observable (the
`logger.warning` fired iff `turn_count >= max_turns`), the number of
completion calls made, and how the loop ended. -/
structure ChatOut where
  result : ChatResult
  warned : Bool
  llmCalls : Nat
  exitReason : ExitReason
deriving DecidableEq, Repr

/-- Embedding of `ChatClient.chat(user_query, max_turns)`: the initial
`initiate_chat`, the bounded tool-execution loop, the final warning check and
the returned summary dict. -/
def chat (cfg : ChatConfig) (O : Oracle) (st : ClientState)
    (userQuery : String) (maxTurns : Nat) : Except PyError ChatOut :=
  match initiate_chat cfg O st 0 (some userQuery) true with
  | .error e => .error e
  | .ok first =>
    match chatLoop cfg O maxTurns first.result first.state first.llmCalls 0 [] with
    | .error e => .error e
    | .ok out =>
        .ok { result := { response := out.response, turns := out.turns,
                          toolResults := out.toolResults,
                          conversationHistory := out.state.conversationHistory },
              warned := decide (maxTurns ≤ out.turns),
              llmCalls := out.llmCalls,
              exitReason := out.exitReason }

/-! ## Operation sequences on a client

The invariants C7 and C8 quantify over sequences of the public operations of
`ChatClient`.  `Op` is one call (with its arguments), `applyOp` its effect on
the client state and the completion-call counter.  Every raising path of the
source leaves `self.available_tools` and `self.conversation_history`
unchanged (the mutations all happen after the last point that can raise), so
a caller that catches the exception and keeps using the client is modelled by
`stepOp` keeping the state on error; a caller that stops at the first raise
is the special case of a shorter operation list. -/

/-- One public operation of `ChatClient`, with its arguments. -/
inductive Op where
  | initClientOp
  | resetOp
  | initiateChatOp (q : Option String) (useHistory : Bool)
  | executeToolCallsOp (resp : LLMResponse)
  | continueOp
deriving DecidableEq, Repr

/-- Effect of one operation on `(client state, completion-call counter)`. -/
def applyOp (cfg : ChatConfig) (O : Oracle) :
    Op → ClientState × Nat → Except PyError (ClientState × Nat)
  | .initClientOp, (st, k) =>
    match initClient cfg O st with
    | .error e => .error e
    | .ok st1 => .ok (st1, k)
  | .resetOp, (st, k) => .ok (reset_conversation cfg st, k)
  | .initiateChatOp q uh, (st, k) =>
    match initiate_chat cfg O st k q uh with
    | .error e => .error e
    | .ok outc => .ok (outc.state, outc.llmCalls)
  | .executeToolCallsOp resp, (st, k) =>
      .ok ((execute_tool_calls cfg O.net st resp).state, k)
  | .continueOp, (st, k) =>
    match continue_conversation cfg O st k with
    | .error e => .error e
    | .ok c => .ok (c.state, c.llmCalls)

/-- One operation, with a raising call leaving the state unchanged (faithful:
every raising path of the source mutates nothing). -/
def stepOp (cfg : ChatConfig) (O : Oracle) (op : Op) (s : ClientState × Nat) :
    ClientState × Nat :=
  match applyOp cfg O op s with
  | .ok s2 => s2
  | .error _ => s

/-- Run a sequence of operations. -/
def runOps (cfg : ChatConfig) (O : Oracle) : List Op → ClientState × Nat → ClientState × Nat
  | [], s => s
  | op :: rest, s => runOps cfg O rest (stepOp cfg O op s)

/-- The operations that append to the history without first ensuring it was
initialized: `execute_tool_calls` and `continue_conversation`. -/
def needsHistory : Op → Bool
  | .executeToolCallsOp _ => true
  | .continueOp => true
  | _ => false

/-- A run is guarded when `execute_tool_calls` / `continue_conversation` are
only invoked while the history is non-empty. -/
def guardedRun (cfg : ChatConfig) (O : Oracle) : List Op → ClientState × Nat → Bool
  | [], _ => true
  | op :: rest, s =>
    (!needsHistory op || !s.1.conversationHistory.isEmpty) &&
      guardedRun cfg O rest (stepOp cfg O op s)

/-! ## Invariant predicates -/

/-- The C7 invariant: a non-empty history starts with the system-prompt
message. -/
def sysHeadInvB (cfg : ChatConfig) (h : List Message) : Bool :=
  h.isEmpty || (h.head? == some (systemMessage cfg))

/-- The C8 invariant: the history is just the system prompt, or its first two
elements are the system prompt followed by a user message. -/
def firstTwoOK (cfg : ChatConfig) (h : List Message) : Bool :=
  h == [systemMessage cfg] ||
    ((h.map Message.role).take 2 == [Role.system, Role.user] &&
     h.head? == some (systemMessage cfg))

/-- Whether a message is an assistant message. -/
def isAssistantB (m : Message) : Bool := m.role == Role.assistant

/-- The nearest assistant message strictly before position `i`. -/
def prevAssistant (h : List Message) (i : Nat) : Option Message :=
  ((h.take i).filter isAssistantB).getLast?

/-- The C5 invariant: every `tool` message is keyed by the id of a tool call
of the nearest preceding assistant message. -/
def toolLinked (h : List Message) : Prop :=
  ∀ (i : Nat) (m : Message), h[i]? = some m → m.role = Role.tool →
    ∃ a, prevAssistant h i = some a ∧ ∃ tc ∈ a.toolCalls, tc.id = m.toolCallId

/-- Well-formedness of the LLM backend per the completion protocol: choice
messages are assistant messages and every emitted tool call carries an id. -/
def wfOracle (O : Oracle) : Prop :=
  ∀ n res, O.llm n = Except.ok res → ∀ m ∈ res.choices,
    m.role = Role.assistant ∧ ∀ tc ∈ m.toolCalls, tc.id.isSome = true

/-! ## Concrete fixtures (Scenario A of the spec and variants) -/

/-- A concrete client configuration. -/
def cfgW : ChatConfig := ⟨"http://localhost:8000/mcp", none, "prompt"⟩

/-- The formatted schema of an `echo` tool. -/
def echoSchema : ToolSchema := ⟨⟨"echo", "echo tool", "schema"⟩⟩

/-- A concrete tool call to `echo` carrying an id. -/
def tcW : ToolCall := ⟨some "call_abc", "echo", "args"⟩

/-- First assistant reply: one tool call to `echo`. -/
def a1W : Message := { role := .assistant, content := some "calling echo", toolCalls := [tcW] }

/-- Second assistant reply: no tool calls. -/
def a2W : Message := { role := .assistant, content := some "done" }

/-- Scenario A oracle: first completion requests `echo`, second is final, the
remote tool succeeds. -/
def OW : Oracle :=
  { llm := fun n => if n = 0 then .ok ⟨[a1W]⟩ else .ok ⟨[a2W]⟩,
    net := fun _ _ => .ok "payload",
    discover := .ok [echoSchema] }

/-- Scenario C oracle: the remote tool invocation fails. -/
def OWerr : Oracle := { OW with net := fun _ _ => .error "boom" }

/-- Oracle whose completion backend always fails. -/
def OWfail : Oracle := { OW with llm := fun _ => .error "llmdown" }

/-- Scenario D oracle: the LLM requests tools on every completion. -/
def OWalways : Oracle := { OW with llm := fun _ => .ok ⟨[a1W]⟩ }

/-- The final Scenario A history: system, user, assistant-with-call, tool,
final assistant. -/
def historyA : List Message :=
  [systemMessage cfgW, userMessage (some "use echo"), a1W,
   toolMessage 0 tcW "payload", a2W]

/-- The full Scenario A output of `chat`. -/
def outA : ChatOut :=
  { result := { response := .inr ⟨[a2W]⟩, turns := 1,
                toolResults := [⟨"echo", "args", .success "payload"⟩],
                conversationHistory := historyA },
    warned := false, llmCalls := 2, exitReason := .noToolCalls }

/-- An already-initialized client state holding just the system prompt. -/
def stInitW : ClientState :=
  { availableTools := some [echoSchema],
    conversationHistory := [systemMessage cfgW] }

/-! ## Loop bookkeeping lemmas -/

/-- Along the `while` loop, the accumulated turn count never exceeds
`turns + fuel`, and the loop ends by the bound exactly when it reaches it. -/
theorem chatLoop_turns_exit (cfg : ChatConfig) (O : Oracle) (fuel : Nat) :
    ∀ (resp : Sum String LLMResponse) (st : ClientState) (k turns : Nat)
      (acc : List ToolResultEntry) (out : LoopOut),
      chatLoop cfg O fuel resp st k turns acc = Except.ok out →
      out.turns ≤ turns + fuel ∧
        (out.exitReason = ExitReason.boundReached ↔ out.turns = turns + fuel) := by
  induction fuel with
  | zero =>
      intro resp st k turns acc out h
      simp only [chatLoop, Except.ok.injEq] at h
      subst h
      simp
  | succ n ih =>
      intro resp st k turns acc out h
      cases resp with
      | inl s => simp [chatLoop] at h
      | inr res =>
          simp only [chatLoop] at h
          by_cases hc : hasToolCalls res
          · rw [if_pos hc] at h
            cases hcc : continue_conversation cfg O
                (execute_tool_calls cfg O.net st res).state k with
            | error e => rw [hcc] at h; simp at h
            | ok c =>
                rw [hcc] at h
                obtain ⟨h21, h22⟩ := ih _ _ _ _ _ _ h
                refine ⟨by omega, ?_⟩
                rw [h22]
                omega
          · rw [if_neg hc] at h
            simp only [Except.ok.injEq] at h
            subst h
            dsimp only
            refine ⟨by omega, ?_⟩
            constructor
            · intro hcontra; cases hcontra
            · intro hcontra; omega

/-- C2: `chat` terminates within `max_turns` iterations of its
tool-execution loop, and the truncation warning (the `logger.warning` fired
when `turn_count >= max_turns`) is set if and only if the loop stopped
because the turn bound was reached rather than because a reply carried no
tool calls.  (The returned dict itself has no flag field; the warning is the
code's truncation signal.) -/
theorem chat_turn_bound_and_truncation (cfg : ChatConfig) (O : Oracle)
    (st : ClientState) (q : String) (maxTurns : Nat) (out : ChatOut)
    (h : chat cfg O st q maxTurns = Except.ok out) :
    out.result.turns ≤ maxTurns ∧
      (out.warned = true ↔ out.exitReason = ExitReason.boundReached) := by
  unfold chat at h
  cases h0 : initiate_chat cfg O st 0 (some q) true with
  | error e => rw [h0] at h; simp at h
  | ok first =>
      rw [h0] at h
      dsimp only at h
      cases hl : chatLoop cfg O maxTurns first.result first.state first.llmCalls 0 [] with
      | error e => rw [hl] at h; simp at h
      | ok lout =>
          rw [hl] at h
          dsimp only at h
          simp only [Except.ok.injEq] at h
          subst h
          obtain ⟨h1, h2⟩ := chatLoop_turns_exit cfg O maxTurns _ _ _ _ _ _ hl
          simp only [Nat.zero_add] at h1 h2
          dsimp only
          refine ⟨h1, ?_⟩
          simp only [decide_eq_true_iff]
          rw [h2]
          omega

/-- Scenario D output of `chat` (`max_turns = 1`, the LLM requests tools on
every completion): stops after exactly one turn with the warning set. -/
def outD : ChatOut :=
  { result := { response := .inr ⟨[a1W]⟩, turns := 1,
                toolResults := [⟨"echo", "args", .success "payload"⟩],
                conversationHistory :=
                  [systemMessage cfgW, userMessage (some "use echo"), a1W,
                   toolMessage 0 tcW "payload", a1W] },
    warned := true, llmCalls := 2, exitReason := .boundReached }

/-- Witness for C2 at the concrete Scenario D run. -/
theorem chat_turn_bound_and_truncation_witness :
    outD.result.turns ≤ 1 ∧
      (outD.warned = true ↔ outD.exitReason = ExitReason.boundReached) :=
  chat_turn_bound_and_truncation cfgW OWalways freshState "use echo" 1 outD rfl

/-- C4: `call_tool` on a name that is the function name of no entry of
`available_tools` fails immediately with the local `ValueError`, performing
no MCP connection and no network I/O (empty event list; the result does not
depend on the remote oracle). -/
theorem call_tool_unknown_tool_fails_fast
    (mcpUrl toolName toolArgs : String) (ts : List ToolSchema)
    (authToken : Option String) (net : String → String → Except String String)
    (habs : ∀ t ∈ ts, t.function.name ≠ toolName) :
    call_tool mcpUrl toolName toolArgs (some ts) authToken net =
      (Except.error (PyError.valueError (toolNotFoundMsg toolName)),
       ([] : List NetEvent)) := by
  unfold call_tool
  have hfind : ts.find? (fun t => t.function.name == toolName) = none := by
    rw [List.find?_eq_none]
    intro t ht
    simpa using habs t ht
  dsimp only
  rw [hfind]

/-- Witness for C4 at a concrete unknown tool name. -/
theorem call_tool_unknown_tool_fails_fast_witness :
    call_tool "http://localhost:8000/mcp" "nosuch" "args" (some [echoSchema])
        none OW.net =
      (Except.error (PyError.valueError (toolNotFoundMsg "nosuch")),
       ([] : List NetEvent)) :=
  call_tool_unknown_tool_fails_fast "http://localhost:8000/mcp" "nosuch" "args"
    [echoSchema] none OW.net (by decide)

/-- On an initialized client, a failing completion call makes `initiate_chat`
return (not raise) the error string, with the user message (when truthy)
appended and nothing else changed. -/
theorem initiate_chat_llm_failure (cfg : ChatConfig) (O : Oracle) (st : ClientState)
    (ts : List ToolSchema) (k : Nat) (uq : Option String) (useHistory : Bool) (e : String)
    (hts : st.availableTools = some ts) (hfail : O.llm k = Except.error e) :
    ∃ sent, initiate_chat cfg O st k uq useHistory =
      Except.ok ⟨Sum.inl (llmErrorString e),
        (if userQueryTruthy uq then
          { st with conversationHistory := st.conversationHistory ++ [userMessage uq] }
         else st),
        k + 1, sent⟩ := by
  unfold initiate_chat initiateCore
  simp only [hts, Option.isNone_some, Bool.false_eq_true, if_false, hfail]
  exact ⟨_, rfl⟩

/-- C6: when the completion call inside `initiate_chat` fails, the failure is
returned to the caller as an error value (no exception), and the history —
the prior messages plus the just-appended user message — is preserved with no
assistant message appended. -/
theorem initiate_chat_llm_failure_preserves_history
    (cfg : ChatConfig) (O : Oracle) (st : ClientState) (ts : List ToolSchema)
    (k : Nat) (q : String) (useHistory : Bool) (e : String)
    (hts : st.availableTools = some ts) (hq : q ≠ "")
    (hfail : O.llm k = Except.error e) :
    ∃ outc, initiate_chat cfg O st k (some q) useHistory = Except.ok outc ∧
      outc.result = Sum.inl (llmErrorString e) ∧
      outc.state.conversationHistory
        = st.conversationHistory ++ [userMessage (some q)] ∧
      outc.state.availableTools = st.availableTools := by
  have htruthy : userQueryTruthy (some q) = true := by
    simp [userQueryTruthy, hq]
  obtain ⟨sent, hinit⟩ :=
    initiate_chat_llm_failure cfg O st ts k (some q) useHistory e hts hfail
  rw [htruthy] at hinit
  simp only [if_true] at hinit
  exact ⟨_, hinit, rfl, rfl, rfl⟩

/-- Witness for C6 at a concrete failing completion. -/
theorem initiate_chat_llm_failure_preserves_history_witness :
    ∃ outc, initiate_chat cfgW OWfail stInitW 0 (some "hello") true = Except.ok outc ∧
      outc.result = Sum.inl (llmErrorString "llmdown") ∧
      outc.state.conversationHistory
        = stInitW.conversationHistory ++ [userMessage (some "hello")] ∧
      outc.state.availableTools = stInitW.availableTools :=
  initiate_chat_llm_failure_preserves_history cfgW OWfail stInitW [echoSchema] 0
    "hello" true "llmdown" rfl (by decide) rfl

/-- C9 (amended with `max_turns ≥ 1`): when the first completion call of a
`chat` run fails, `initiate_chat` returns the plain error string, and `chat`
raises the `AttributeError` of `response.get('choices')` on that string
instead of returning its normal result dict. -/
theorem chat_initial_llm_failure_raises_attribute_error
    (cfg : ChatConfig) (O : Oracle) (st : ClientState) (ts : List ToolSchema)
    (q : String) (maxTurns : Nat) (e : String)
    (hts : st.availableTools = some ts)
    (hfail : O.llm 0 = Except.error e)
    (hmt : 1 ≤ maxTurns) :
    chat cfg O st q maxTurns = Except.error (PyError.attributeError strGetMsg) ∧
      ∃ outc, initiate_chat cfg O st 0 (some q) true = Except.ok outc ∧
        outc.result = Sum.inl (llmErrorString e) := by
  obtain ⟨n, rfl⟩ : ∃ n, maxTurns = n + 1 := ⟨maxTurns - 1, by omega⟩
  obtain ⟨sent, hinit⟩ :=
    initiate_chat_llm_failure cfg O st ts 0 (some q) true e hts hfail
  refine ⟨?_, _, hinit, rfl⟩
  unfold chat
  rw [hinit]
  dsimp only
  simp [chatLoop]

/-- The result `chat` returns at `max_turns = 0` when the first completion
fails: a normal result dict carrying the error string. -/
def outC9 : ChatOut :=
  { result := { response := .inl (llmErrorString "llmdown"), turns := 0,
                toolResults := [],
                conversationHistory := [systemMessage cfgW, userMessage (some "q")] },
    warned := true, llmCalls := 1, exitReason := .boundReached }

/-- C9 counterexample: at `max_turns = 0` the `response.get('choices')`
access is never reached, so `chat` returns its normal result dict (with the
error string as `response`) instead of failing — the claim is false for that
run. -/
theorem chat_initial_llm_failure_maxturns_zero_returns :
    chat cfgW OWfail freshState "q" 0 = Except.ok outC9 ∧
      outC9.result.response = Sum.inl (llmErrorString "llmdown") :=
  ⟨rfl, rfl⟩

/-- C10 (amended with a non-empty `user_query`): `use_history=False` changes
only the messages sent to the backend; the session history is still extended
with both the user message and the assistant reply, exactly as with
`use_history=True`. -/
theorem initiate_chat_no_history_still_records
    (cfg : ChatConfig) (O : Oracle) (st : ClientState) (ts : List ToolSchema)
    (k : Nat) (q : String) (res : LLMResponse) (m : Message) (restc : List Message)
    (hts : st.availableTools = some ts) (hq : q ≠ "")
    (hok : O.llm k = Except.ok res) (hch : res.choices = m :: restc) :
    ∃ outF outT,
      initiate_chat cfg O st k (some q) false = Except.ok outF ∧
      initiate_chat cfg O st k (some q) true = Except.ok outT ∧
      outF.state.conversationHistory
        = st.conversationHistory ++ [userMessage (some q), m] ∧
      outT.state.conversationHistory = outF.state.conversationHistory ∧
      outF.sent = [systemMessage cfg, userMessage (some q)] ∧
      outT.sent = st.conversationHistory ++ [userMessage (some q)] := by
  have htruthy : userQueryTruthy (some q) = true := by
    simp [userQueryTruthy, hq]
  unfold initiate_chat initiateCore
  simp only [hts, Option.isNone_some, Bool.false_eq_true, if_false, htruthy, if_true,
    hok, hch]
  refine ⟨_, _, rfl, rfl, ?_, ?_, rfl, rfl⟩
  · simp
  · rfl

/-- Witness for C10 (amended) at a concrete run. -/
theorem initiate_chat_no_history_still_records_witness :
    ∃ outF outT,
      initiate_chat cfgW OW stInitW 0 (some "hello") false = Except.ok outF ∧
      initiate_chat cfgW OW stInitW 0 (some "hello") true = Except.ok outT ∧
      outF.state.conversationHistory
        = stInitW.conversationHistory ++ [userMessage (some "hello"), a1W] ∧
      outT.state.conversationHistory = outF.state.conversationHistory ∧
      outF.sent = [systemMessage cfgW, userMessage (some "hello")] ∧
      outT.sent = stInitW.conversationHistory ++ [userMessage (some "hello")] :=
  initiate_chat_no_history_still_records cfgW OW stInitW [echoSchema] 0 "hello"
    ⟨[a1W]⟩ a1W [] rfl (by decide) rfl rfl

/-- The result of `initiate_chat` on an initialized client with the
non-`None` but empty query `""` and `use_history=False`. -/
def outC10 : InitiateOut :=
  ⟨.inr ⟨[a1W]⟩,
   ⟨some [echoSchema], [systemMessage cfgW, a1W]⟩,
   1,
   [systemMessage cfgW, userMessage (some "")]⟩

/-- C10 counterexample: with the non-`None` query `""` (falsy in Python) and
a successful completion, the stored history gains only the assistant message
— no user message is recorded, so the claim as stated fails. -/
theorem initiate_chat_empty_query_skips_user_message :
    initiate_chat cfgW OW stInitW 0 (some "") false = Except.ok outC10 ∧
      outC10.state.conversationHistory.map Message.role
        = [Role.system, Role.assistant] :=
  ⟨rfl, rfl⟩

/-- A fresh client's `initiate_chat`: discovery seeds the system prompt, the
user message is appended, the completion result's first choice is appended. -/
theorem initiate_chat_fresh (cfg : ChatConfig) (O : Oracle) (q : String)
    (ts : List ToolSchema) (res : LLMResponse) (m : Message) (restc : List Message)
    (hq : q ≠ "") (hdisc : O.discover = Except.ok ts)
    (hl0 : O.llm 0 = Except.ok res) (hch : res.choices = m :: restc) :
    initiate_chat cfg O freshState 0 (some q) true =
      Except.ok ⟨Sum.inr res,
        ⟨some ts, [systemMessage cfg, userMessage (some q), m]⟩, 1,
        [systemMessage cfg, userMessage (some q)]⟩ := by
  have htruthy : userQueryTruthy (some q) = true := by
    simp [userQueryTruthy, hq]
  unfold initiate_chat initiateCore initClient freshState
  simp only [Option.isNone_none, if_true, hdisc, List.isEmpty_nil, htruthy, hl0, hch]
  rfl

/-- One round of the `while` loop when the current reply carries exactly one
tool call and the next completion returns a reply with none: the tool runs,
its message is appended, the next reply is appended, and the loop breaks. -/
theorem chatLoop_two_step (cfg : ChatConfig) (O : Oracle) (ts : List ToolSchema)
    (h3 : List Message) (a1 a2 : Message) (tc : ToolCall)
    (entry : ToolResultEntry) (msg : Message) (evs : List NetEvent) (n : Nat)
    (hl1 : O.llm 1 = Except.ok ⟨[a2]⟩)
    (ha1 : a1.toolCalls = [tc]) (ha2 : a2.toolCalls = [])
    (hexec : execOne cfg (some ts) O.net 0 tc = (entry, msg, evs)) :
    chatLoop cfg O (n + 1 + 1) (Sum.inr ⟨[a1]⟩) ⟨some ts, h3⟩ 1 0 [] =
      Except.ok ⟨Sum.inr ⟨[a2]⟩, 1, [entry], ⟨some ts, (h3 ++ [msg]) ++ [a2]⟩, 2,
        ExitReason.noToolCalls⟩ := by
  have hhas1 : hasToolCalls ⟨[a1]⟩ = true := by
    simp [hasToolCalls, ha1]
  have hhas2 : hasToolCalls ⟨[a2]⟩ = false := by
    simp [hasToolCalls, ha2]
  have hexecall : execute_tool_calls cfg O.net ⟨some ts, h3⟩ ⟨[a1]⟩ =
      ⟨[entry], ⟨some ts, h3 ++ [msg]⟩, evs ++ []⟩ := by
    unfold execute_tool_calls
    dsimp only
    rw [ha1]
    simp only [List.isEmpty_cons, Bool.false_eq_true, if_false]
    unfold execLoop
    rw [hexec]
    rfl
  have hcont : continue_conversation cfg O ⟨some ts, h3 ++ [msg]⟩ 1 =
      Except.ok ⟨⟨[a2]⟩, ⟨some ts, (h3 ++ [msg]) ++ [a2]⟩, 2⟩ := by
    unfold continue_conversation
    rw [hl1]
  simp only [chatLoop, hhas1, if_true, hexecall, hcont, hhas2, Bool.false_eq_true,
    if_false, List.nil_append]

/-- C1 (amended: the reported turn count is 1, the code's counter counts
tool-execution rounds): a fresh-client `chat` run whose first completion
returns exactly one tool call, whose invocation succeeds, and whose second
completion returns no tool calls, appends exactly one assistant and one tool
message between the two completion calls, makes exactly two completion
calls, reports turn count 1 and no truncation warning, and ends with the
history system, user, assistant-with-call, tool, final assistant.  (The
called tool's catalog name is non-empty, as a successful invocation
requires: `call_tool` rejects a falsy found name before the remote call.) -/
theorem chat_scenario_one_tool_call
    (cfg : ChatConfig) (O : Oracle) (q payload : String) (ts : List ToolSchema)
    (t0 : ToolSchema) (tc : ToolCall) (a1 a2 : Message) (maxTurns : Nat)
    (hq : q ≠ "") (hdisc : O.discover = Except.ok ts)
    (hl0 : O.llm 0 = Except.ok ⟨[a1]⟩) (hl1 : O.llm 1 = Except.ok ⟨[a2]⟩)
    (ha1r : a1.role = Role.assistant) (ha1 : a1.toolCalls = [tc])
    (hfind : ts.find? (fun t => t.function.name == tc.name) = some t0)
    (hname : t0.function.name ≠ "")
    (hnet : O.net t0.function.name tc.arguments = Except.ok payload)
    (ha2r : a2.role = Role.assistant) (ha2 : a2.toolCalls = [])
    (hmt : 2 ≤ maxTurns) :
    chat cfg O freshState q maxTurns =
      Except.ok
        { result := { response := Sum.inr ⟨[a2]⟩, turns := 1,
                      toolResults := [⟨tc.name, tc.arguments, .success payload⟩],
                      conversationHistory :=
                        [systemMessage cfg, userMessage (some q), a1,
                         toolMessage 0 tc payload, a2] },
          warned := false, llmCalls := 2, exitReason := .noToolCalls } ∧
      [systemMessage cfg, userMessage (some q), a1,
       toolMessage 0 tc payload, a2].map Message.role
        = [Role.system, Role.user, Role.assistant, Role.tool, Role.assistant] := by
  obtain ⟨n, rfl⟩ : ∃ n, maxTurns = n + 1 + 1 := ⟨maxTurns - 2, by omega⟩
  constructor
  · have hexec : execOne cfg (some ts) O.net 0 tc =
        (⟨tc.name, tc.arguments, .success payload⟩, toolMessage 0 tc payload,
         [.mcpConnect cfg.mcpUrl cfg.authToken, .mcpCall t0.function.name tc.arguments]) := by
      unfold execOne call_tool
      dsimp only
      rw [hfind]
      dsimp only
      rw [show (t0.function.name == "") = false from by simpa using hname]
      rw [hnet]
      rfl
    have hinit := initiate_chat_fresh cfg O q ts ⟨[a1]⟩ a1 [] hq hdisc hl0 rfl
    unfold chat
    rw [hinit]
    dsimp only
    rw [chatLoop_two_step cfg O ts _ a1 a2 tc _ _ _ n hl1 ha1 ha2 hexec]
    have hw : decide (n + 1 + 1 ≤ 1) = false := by
      simp only [decide_eq_false_iff_not]
      omega
    simp [hw]
  · simp [systemMessage, userMessage, toolMessage, ha1r, ha2r]

/-- Witness for C1 (amended) at the concrete Scenario A fixtures. -/
theorem chat_scenario_one_tool_call_witness :
    chat cfgW OW freshState "use echo" 5 = Except.ok outA ∧
      historyA.map Message.role
        = [Role.system, Role.user, Role.assistant, Role.tool, Role.assistant] :=
  chat_scenario_one_tool_call cfgW OW "use echo" "payload" [echoSchema] echoSchema
    tcW a1W a2W 5 (by decide) rfl rfl rfl rfl rfl rfl (by decide) rfl rfl rfl
    (by omega)

/-- C1 counterexample: the Scenario A run reports turn count 1, not the 2
the claim states. -/
theorem chat_scenario_a_turn_count_not_two :
    chat cfgW OW freshState "use echo" 5 = Except.ok outA ∧
      outA.result.turns ≠ 2 :=
  ⟨rfl, by decide⟩

/-- C3: a `chat` run in which the single tool call names a known tool whose
invocation fails does not propagate the exception: the tool message appended
carries the JSON encoding of the error and is keyed by the call's id, the
failure is recorded in the returned results, and the loop continues to a
second completion call exactly as in the success case.  (The catalog name is
non-empty, so the failure is the remote-side one; a falsy name would fail
locally with the `ValueError`, likewise folded into history.) -/
theorem chat_scenario_tool_error_continues
    (cfg : ChatConfig) (O : Oracle) (q e : String) (ts : List ToolSchema)
    (t0 : ToolSchema) (tc : ToolCall) (cid : String) (a1 a2 : Message) (maxTurns : Nat)
    (hq : q ≠ "") (hdisc : O.discover = Except.ok ts)
    (hl0 : O.llm 0 = Except.ok ⟨[a1]⟩) (hl1 : O.llm 1 = Except.ok ⟨[a2]⟩)
    (ha1 : a1.toolCalls = [tc]) (hid : tc.id = some cid)
    (hfind : ts.find? (fun t => t.function.name == tc.name) = some t0)
    (hname : t0.function.name ≠ "")
    (hnet : O.net t0.function.name tc.arguments = Except.error e)
    (ha2 : a2.toolCalls = [])
    (hmt : 2 ≤ maxTurns) :
    chat cfg O freshState q maxTurns =
      Except.ok
        { result := { response := Sum.inr ⟨[a2]⟩, turns := 1,
                      toolResults := [⟨tc.name, tc.arguments, .failure e⟩],
                      conversationHistory :=
                        [systemMessage cfg, userMessage (some q), a1,
                         toolMessage 0 tc (jsonErrorContent e), a2] },
          warned := false, llmCalls := 2, exitReason := .noToolCalls } ∧
      (toolMessage 0 tc (jsonErrorContent e)).toolCallId = some cid := by
  obtain ⟨n, rfl⟩ : ∃ n, maxTurns = n + 1 + 1 := ⟨maxTurns - 2, by omega⟩
  constructor
  · have hexec : execOne cfg (some ts) O.net 0 tc =
        (⟨tc.name, tc.arguments, .failure e⟩, toolMessage 0 tc (jsonErrorContent e),
         [.mcpConnect cfg.mcpUrl cfg.authToken, .mcpCall t0.function.name tc.arguments]) := by
      unfold execOne call_tool
      dsimp only
      rw [hfind]
      dsimp only
      rw [show (t0.function.name == "") = false from by simpa using hname]
      rw [hnet]
      rfl
    have hinit := initiate_chat_fresh cfg O q ts ⟨[a1]⟩ a1 [] hq hdisc hl0 rfl
    unfold chat
    rw [hinit]
    dsimp only
    rw [chatLoop_two_step cfg O ts _ a1 a2 tc _ _ _ n hl1 ha1 ha2 hexec]
    have hw : decide (n + 1 + 1 ≤ 1) = false := by
      simp only [decide_eq_false_iff_not]
      omega
    simp [hw]
  · simp [toolMessage, toolCallIdKey, hid]

/-- The full Scenario C output of `chat`. -/
def outC3 : ChatOut :=
  { result := { response := .inr ⟨[a2W]⟩, turns := 1,
                toolResults := [⟨"echo", "args", .failure "boom"⟩],
                conversationHistory :=
                  [systemMessage cfgW, userMessage (some "use echo"), a1W,
                   toolMessage 0 tcW (jsonErrorContent "boom"), a2W] },
    warned := false, llmCalls := 2, exitReason := .noToolCalls }

/-- Witness for C3 at the concrete Scenario C fixtures. -/
theorem chat_scenario_tool_error_continues_witness :
    chat cfgW OWerr freshState "use echo" 5 = Except.ok outC3 ∧
      (toolMessage 0 tcW (jsonErrorContent "boom")).toolCallId = some "call_abc" :=
  chat_scenario_tool_error_continues cfgW OWerr "use echo" "boom" [echoSchema]
    echoSchema tcW "call_abc" a1W a2W 5 (by decide) rfl rfl rfl rfl rfl rfl
    (by decide) rfl rfl (by omega)

/-- Witness for C9 (amended) at a concrete failing first completion. -/
theorem chat_initial_llm_failure_raises_attribute_error_witness :
    chat cfgW OWfail stInitW "q" 1 = Except.error (PyError.attributeError strGetMsg) ∧
      ∃ outc, initiate_chat cfgW OWfail stInitW 0 (some "q") true = Except.ok outc ∧
        outc.result = Sum.inl (llmErrorString "llmdown") :=
  chat_initial_llm_failure_raises_attribute_error cfgW OWfail stInitW [echoSchema]
    "q" 1 "llmdown" rfl rfl (by omega)

/-! ## Shape lemmas: every operation only appends to an established history -/

/-- `initialize` sets the tools and seeds an empty history with the system
prompt, leaving a non-empty history unchanged. -/
theorem initClient_shape (cfg : ChatConfig) (O : Oracle) (st st1 : ClientState)
    (h : initClient cfg O st = Except.ok st1) :
    (∃ ts, st1.availableTools = some ts) ∧
      st1.conversationHistory =
        (if st.conversationHistory.isEmpty then [systemMessage cfg]
         else st.conversationHistory) := by
  unfold initClient at h
  cases hd : O.discover with
  | error e => rw [hd] at h; simp at h
  | ok ts =>
      rw [hd] at h
      simp only [Except.ok.injEq] at h
      subst h
      exact ⟨⟨ts, rfl⟩, rfl⟩

/-- The completion phase of `initiate_chat` keeps the tools and only appends
to the history. -/
theorem initiateCore_shape (cfg : ChatConfig) (O : Oracle) (st1 : ClientState)
    (k : Nat) (uq : Option String) (uh : Bool) :
    (initiateCore cfg O st1 k uq uh).state.availableTools = st1.availableTools ∧
      ∃ tail, (initiateCore cfg O st1 k uq uh).state.conversationHistory
        = st1.conversationHistory ++ tail := by
  unfold initiateCore
  cases hl : O.llm k with
  | error e =>
      by_cases htr : userQueryTruthy uq = true
      · exact ⟨by simp [htr], [userMessage uq], by simp [htr]⟩
      · exact ⟨by simp [htr], [], by simp [htr]⟩
  | ok res =>
      cases hch : res.choices with
      | nil =>
          by_cases htr : userQueryTruthy uq = true
          · exact ⟨by simp [htr, hch], [userMessage uq], by simp [htr, hch]⟩
          · exact ⟨by simp [htr, hch], [], by simp [htr, hch]⟩
      | cons m rest =>
          by_cases htr : userQueryTruthy uq = true
          · exact ⟨by simp [htr, hch], [userMessage uq, m], by simp [htr, hch]⟩
          · exact ⟨by simp [htr, hch], [m], by simp [htr, hch]⟩

/-- With a truthy query, the completion phase appends the user message first. -/
theorem initiateCore_truthy_history (cfg : ChatConfig) (O : Oracle)
    (st1 : ClientState) (k : Nat) (uq : Option String) (uh : Bool)
    (htr : userQueryTruthy uq = true) :
    ∃ tail, (initiateCore cfg O st1 k uq uh).state.conversationHistory
      = st1.conversationHistory ++ userMessage uq :: tail := by
  unfold initiateCore
  cases hl : O.llm k with
  | error e => exact ⟨[], by simp [htr]⟩
  | ok res =>
      cases hch : res.choices with
      | nil => exact ⟨[], by simp [htr, hch]⟩
      | cons m rest => exact ⟨[m], by simp [htr, hch]⟩

/-- A successful `initiate_chat` only appends to the history. -/
theorem initiate_chat_append (cfg : ChatConfig) (O : Oracle) (st : ClientState)
    (k : Nat) (uq : Option String) (uh : Bool) (outc : InitiateOut)
    (h : initiate_chat cfg O st k uq uh = Except.ok outc) :
    ∃ tail, outc.state.conversationHistory = st.conversationHistory ++ tail := by
  unfold initiate_chat at h
  cases hn : st.availableTools.isNone with
  | false =>
      rw [hn] at h
      simp only [Bool.false_eq_true, if_false, Except.ok.injEq] at h
      subst h
      obtain ⟨_, tail, ht⟩ := initiateCore_shape cfg O st k uq uh
      exact ⟨tail, ht⟩
  | true =>
      rw [hn] at h
      simp only [if_true] at h
      cases hic : initClient cfg O st with
      | error e => rw [hic] at h; simp at h
      | ok st1 =>
          rw [hic] at h
          simp only [Except.ok.injEq] at h
          subst h
          obtain ⟨_, hh⟩ := initClient_shape cfg O st st1 hic
          obtain ⟨_, tail, ht⟩ := initiateCore_shape cfg O st1 k uq uh
          by_cases hemp : st.conversationHistory.isEmpty = true
          · have he : st.conversationHistory = [] := List.isEmpty_iff.mp hemp
            refine ⟨systemMessage cfg :: tail, ?_⟩
            rw [ht, hh, if_pos hemp, he]
            simp
          · refine ⟨tail, ?_⟩
            rw [ht, hh, if_neg hemp]

/-- A successful `continue_conversation` appends exactly one message and
keeps the tools. -/
theorem continue_conversation_shape (cfg : ChatConfig) (O : Oracle)
    (st : ClientState) (k : Nat) (c : ContinueOut)
    (h : continue_conversation cfg O st k = Except.ok c) :
    c.state.availableTools = st.availableTools ∧
      ∃ m, c.state.conversationHistory = st.conversationHistory ++ [m] := by
  unfold continue_conversation at h
  cases hl : O.llm k with
  | error e => rw [hl] at h; simp at h
  | ok res =>
      rw [hl] at h
      dsimp only at h
      cases hch : res.choices with
      | nil => rw [hch] at h; simp at h
      | cons m rest =>
          rw [hch] at h
          simp only [Except.ok.injEq] at h
          subst h
          exact ⟨rfl, m, rfl⟩

/-- `execute_tool_calls` keeps the tools and only appends to the history. -/
theorem execute_tool_calls_state (cfg : ChatConfig)
    (net : String → String → Except String String) (st : ClientState)
    (resp : LLMResponse) :
    (execute_tool_calls cfg net st resp).state.availableTools = st.availableTools ∧
      ∃ ms, (execute_tool_calls cfg net st resp).state.conversationHistory
        = st.conversationHistory ++ ms := by
  unfold execute_tool_calls
  cases hch : resp.choices with
  | nil =>
      exact ⟨rfl, [], by simp⟩
  | cons m rest =>
      dsimp only
      by_cases he : m.toolCalls.isEmpty = true
      · rw [if_pos he]
        exact ⟨rfl, [], by simp⟩
      · rw [if_neg he]
        rcases hex : execLoop cfg st.availableTools net 0 m.toolCalls with ⟨rs, ms, evs⟩
        exact ⟨rfl, ms, rfl⟩

/-! ## C7: the system-prompt head invariant -/

/-- Induction invariant for C7: a non-empty history starts with the system
message, and the tools are only set once the history is non-empty. -/
def inv7 (cfg : ChatConfig) (st : ClientState) : Prop :=
  (st.conversationHistory ≠ [] →
    st.conversationHistory.head? = some (systemMessage cfg)) ∧
  (st.availableTools ≠ none → st.conversationHistory ≠ [])

/-- Appending to a non-empty history headed by the system prompt preserves
`inv7`, whatever the tools become. -/
theorem inv7_append (cfg : ChatConfig) (tools2 : Option (List ToolSchema))
    (h tail : List Message) (hne : h ≠ [])
    (hhead : h.head? = some (systemMessage cfg)) :
    inv7 cfg ⟨tools2, h ++ tail⟩ := by
  constructor
  · intro _
    rw [List.head?_append_of_ne_nil _ hne, hhead]
  · intro _
    simp [List.append_eq_nil, hne]

/-- One guarded operation preserves `inv7`. -/
theorem stepOp_inv7 (cfg : ChatConfig) (O : Oracle) (op : Op) (s : ClientState × Nat)
    (hI : inv7 cfg s.1)
    (hg : needsHistory op = true → s.1.conversationHistory ≠ []) :
    inv7 cfg (stepOp cfg O op s).1 := by
  obtain ⟨st, k⟩ := s
  obtain ⟨h1, h2⟩ := hI
  cases op with
  | initClientOp =>
      unfold stepOp applyOp
      dsimp only
      cases hic : initClient cfg O st with
      | error e => exact ⟨h1, h2⟩
      | ok st1 =>
          obtain ⟨⟨ts, hts⟩, hh⟩ := initClient_shape cfg O st st1 hic
          dsimp only
          by_cases hemp : st.conversationHistory.isEmpty = true
          · rw [if_pos hemp] at hh
            exact ⟨fun _ => by rw [hh]; rfl, fun _ => by rw [hh]; simp⟩
          · rw [if_neg hemp] at hh
            have hne : st.conversationHistory ≠ [] := by
              intro hc; exact hemp (List.isEmpty_iff.mpr hc)
            exact ⟨fun _ => by rw [hh]; exact h1 hne, fun _ => by rw [hh]; exact hne⟩
  | resetOp =>
      unfold stepOp applyOp reset_conversation
      dsimp only
      exact ⟨fun _ => rfl, fun _ => by simp⟩
  | initiateChatOp q uhh =>
      unfold stepOp applyOp
      dsimp only
      cases hinit : initiate_chat cfg O st k q uhh with
      | error e => exact ⟨h1, h2⟩
      | ok outc =>
          dsimp only
          unfold initiate_chat at hinit
          cases hn : st.availableTools.isNone with
          | true =>
              rw [hn] at hinit
              simp only [if_true] at hinit
              cases hic : initClient cfg O st with
              | error e => rw [hic] at hinit; simp at hinit
              | ok st1 =>
                  rw [hic] at hinit
                  simp only [Except.ok.injEq] at hinit
                  subst hinit
                  obtain ⟨⟨ts1, hts1⟩, hh1⟩ := initClient_shape cfg O st st1 hic
                  obtain ⟨htools, tail, ht⟩ := initiateCore_shape cfg O st1 k q uhh
                  have hst1 : st1.conversationHistory ≠ [] ∧
                      st1.conversationHistory.head? = some (systemMessage cfg) := by
                    by_cases hemp : st.conversationHistory.isEmpty = true
                    · rw [if_pos hemp] at hh1
                      exact ⟨by rw [hh1]; simp, by rw [hh1]; rfl⟩
                    · rw [if_neg hemp] at hh1
                      have hne : st.conversationHistory ≠ [] := by
                        intro hc; exact hemp (List.isEmpty_iff.mpr hc)
                      exact ⟨by rw [hh1]; exact hne, by rw [hh1]; exact h1 hne⟩
                  have := inv7_append cfg
                    (initiateCore cfg O st1 k q uhh).state.availableTools
                    st1.conversationHistory tail hst1.1 hst1.2
                  constructor
                  · intro _
                    rw [ht]
                    rw [List.head?_append_of_ne_nil _ hst1.1]
                    exact hst1.2
                  · intro _
                    rw [ht]
                    simp [List.append_eq_nil, hst1.1]
          | false =>
              rw [hn] at hinit
              simp only [Bool.false_eq_true, if_false, Except.ok.injEq] at hinit
              subst hinit
              obtain ⟨htools, tail, ht⟩ := initiateCore_shape cfg O st k q uhh
              have hsome : st.availableTools ≠ none := by
                intro hc; rw [hc] at hn; simp at hn
              have hne : st.conversationHistory ≠ [] := h2 hsome
              constructor
              · intro _
                rw [ht, List.head?_append_of_ne_nil _ hne]
                exact h1 hne
              · intro _
                rw [ht]
                simp [List.append_eq_nil, hne]
  | executeToolCallsOp resp =>
      unfold stepOp applyOp
      dsimp only
      obtain ⟨htools, ms, hms⟩ := execute_tool_calls_state cfg O.net st resp
      have hne : st.conversationHistory ≠ [] := hg rfl
      constructor
      · intro _
        rw [hms, List.head?_append_of_ne_nil _ hne]
        exact h1 hne
      · intro _
        rw [hms]
        simp [List.append_eq_nil, hne]
  | continueOp =>
      unfold stepOp applyOp
      dsimp only
      cases hc : continue_conversation cfg O st k with
      | error e => exact ⟨h1, h2⟩
      | ok c =>
          dsimp only
          obtain ⟨htools, m, hm⟩ := continue_conversation_shape cfg O st k c hc
          have hne : st.conversationHistory ≠ [] := hg rfl
          constructor
          · intro _
            rw [hm, List.head?_append_of_ne_nil _ hne]
            exact h1 hne
          · intro _
            rw [hm]
            simp [List.append_eq_nil, hne]

/-- A guarded run from an `inv7` state stays in `inv7`. -/
theorem runOps_inv7 (cfg : ChatConfig) (O : Oracle) (ops : List Op) :
    ∀ s, inv7 cfg s.1 → guardedRun cfg O ops s = true →
      inv7 cfg (runOps cfg O ops s).1 := by
  induction ops with
  | nil => intro s hI _; exact hI
  | cons op rest ih =>
      intro s hI hg
      unfold guardedRun at hg
      rw [Bool.and_eq_true] at hg
      obtain ⟨hg1, hg2⟩ := hg
      unfold runOps
      apply ih _ _ hg2
      apply stepOp_inv7 cfg O op s hI
      intro hnh
      rw [hnh] at hg1
      simp only [Bool.not_true, Bool.false_or, Bool.not_eq_true'] at hg1
      intro hc
      rw [List.isEmpty_iff.mpr hc] at hg1
      cases hg1

/-- C7 (amended: for every sequence of client operations in which
`execute_tool_calls` and `continue_conversation` are only invoked while the
history is non-empty): starting from a freshly constructed client, whenever
the history is non-empty its first element is the system-prompt message. -/
theorem client_history_system_head (cfg : ChatConfig) (O : Oracle) (ops : List Op)
    (hg : guardedRun cfg O ops (freshState, 0) = true) :
    sysHeadInvB cfg (runOps cfg O ops (freshState, 0)).1.conversationHistory = true := by
  have hI : inv7 cfg freshState := by
    exact ⟨fun hne => absurd rfl hne, fun ht => absurd rfl ht⟩
  obtain ⟨h1, _⟩ := runOps_inv7 cfg O ops (freshState, 0) hI hg
  unfold sysHeadInvB
  cases hh : (runOps cfg O ops (freshState, 0)).1.conversationHistory with
  | nil => simp
  | cons a t =>
      have hx := h1 (by rw [hh]; simp)
      rw [hh] at hx
      simp [hx]

/-- A response carrying one tool call, used to drive `execute_tool_calls`
directly. -/
def respW : LLMResponse := ⟨[a1W]⟩

/-- C7 counterexample: calling `execute_tool_calls` on a freshly constructed
client (empty history, uninitialized tools) appends a tool message first, so
a non-empty reachable history need not start with the system prompt. -/
theorem fresh_execute_tool_calls_breaks_system_head :
    sysHeadInvB cfgW ((runOps cfgW OW [Op.executeToolCallsOp respW]
      (freshState, 0)).1.conversationHistory) = false := rfl

/-- Witness for C7 (amended) at a concrete guarded run. -/
theorem client_history_system_head_witness :
    sysHeadInvB cfgW ((runOps cfgW OW
      [Op.initClientOp, Op.initiateChatOp (some "hi") true,
       Op.executeToolCallsOp respW]
      (freshState, 0)).1.conversationHistory) = true :=
  client_history_system_head cfgW OW
    [Op.initClientOp, Op.initiateChatOp (some "hi") true,
     Op.executeToolCallsOp respW] rfl

/-! ## C8: the (system, user) prefix after a reset -/

/-- Induction invariant for C8: the first two messages are the system prompt
then a user message. -/
def firstTwoPrefix (cfg : ChatConfig) (st : ClientState) : Prop :=
  (st.conversationHistory.map Message.role).take 2 = [Role.system, Role.user] ∧
    st.conversationHistory.head? = some (systemMessage cfg)

/-- Appending preserves the (system, user) two-message prefix. -/
theorem firstTwoPrefix_append (cfg : ChatConfig) (h tail : List Message)
    (hK : (h.map Message.role).take 2 = [Role.system, Role.user] ∧
          h.head? = some (systemMessage cfg)) :
    ((h ++ tail).map Message.role).take 2 = [Role.system, Role.user] ∧
      (h ++ tail).head? = some (systemMessage cfg) := by
  obtain ⟨hK1, hK2⟩ := hK
  cases h with
  | nil => simp at hK2
  | cons x t =>
      cases t with
      | nil => simp at hK1
      | cons y t2 =>
          constructor
          · simpa using hK1
          · simpa using hK2

/-- Every operation except `reset_conversation` only appends to the history. -/
theorem stepOp_append (cfg : ChatConfig) (O : Oracle) (op : Op) (s : ClientState × Nat)
    (hop : op ≠ Op.resetOp) :
    ∃ tail, (stepOp cfg O op s).1.conversationHistory
      = s.1.conversationHistory ++ tail := by
  obtain ⟨st, k⟩ := s
  cases op with
  | resetOp => exact absurd rfl hop
  | initClientOp =>
      unfold stepOp applyOp
      dsimp only
      cases hic : initClient cfg O st with
      | error e => exact ⟨[], by simp⟩
      | ok st1 =>
          obtain ⟨_, hh⟩ := initClient_shape cfg O st st1 hic
          dsimp only
          by_cases hemp : st.conversationHistory.isEmpty = true
          · refine ⟨[systemMessage cfg], ?_⟩
            rw [hh, if_pos hemp, List.isEmpty_iff.mp hemp]
            rfl
          · exact ⟨[], by rw [hh, if_neg hemp]; simp⟩
  | initiateChatOp q uhh =>
      unfold stepOp applyOp
      dsimp only
      cases hinit : initiate_chat cfg O st k q uhh with
      | error e => exact ⟨[], by simp⟩
      | ok outc =>
          dsimp only
          exact initiate_chat_append cfg O st k q uhh outc hinit
  | executeToolCallsOp resp =>
      unfold stepOp applyOp
      dsimp only
      obtain ⟨_, ms, hms⟩ := execute_tool_calls_state cfg O.net st resp
      exact ⟨ms, hms⟩
  | continueOp =>
      unfold stepOp applyOp
      dsimp only
      cases hc : continue_conversation cfg O st k with
      | error e => exact ⟨[], by simp⟩
      | ok c =>
          dsimp only
          obtain ⟨_, m, hm⟩ := continue_conversation_shape cfg O st k c hc
          exact ⟨[m], hm⟩

/-- A reset-free run preserves the (system, user) prefix. -/
theorem runOps_firstTwo (cfg : ChatConfig) (O : Oracle) (ops : List Op) :
    ∀ s, Op.resetOp ∉ ops → firstTwoPrefix cfg s.1 →
      firstTwoPrefix cfg (runOps cfg O ops s).1 := by
  induction ops with
  | nil => intro s _ hK; exact hK
  | cons op rest ih =>
      intro s hmem hK
      unfold runOps
      apply ih
      · intro hcontra; exact hmem (List.mem_cons_of_mem _ hcontra)
      · obtain ⟨tail, ht⟩ := stepOp_append cfg O op s
          (fun hcontra => hmem (hcontra ▸ List.mem_cons_self _ _))
        have := firstTwoPrefix_append cfg s.1.conversationHistory tail hK
        unfold firstTwoPrefix
        rw [ht]
        exact this

/-- The two-message prefix gives the C8 predicate. -/
theorem firstTwoOK_of_prefix (cfg : ChatConfig) (h : List Message)
    (hp : (h.map Message.role).take 2 = [Role.system, Role.user] ∧
          h.head? = some (systemMessage cfg)) :
    firstTwoOK cfg h = true := by
  unfold firstTwoOK
  rw [Bool.or_eq_true, Bool.and_eq_true]
  right
  exact ⟨by simp [hp.1], by simp [hp.2]⟩

/-- C8 (amended: on an initialized client, for sequences of history-touching
operations that start with `initiate_chat` on a non-empty user query and
contain no reset): after `reset_conversation`, the history is always either
just `(system,)` or has `(system, user)` as its first two elements. -/
theorem reset_then_appends_keep_system_user (cfg : ChatConfig) (O : Oracle)
    (ts : List ToolSchema) (st0 : ClientState) (k0 : Nat) (q : String) (uh : Bool)
    (ops : List Op)
    (hts : st0.availableTools = some ts)
    (hq : q ≠ "") (hmem : Op.resetOp ∉ ops) :
    firstTwoOK cfg (runOps cfg O (Op.initiateChatOp (some q) uh :: ops)
      (reset_conversation cfg st0, k0)).1.conversationHistory = true := by
  have htruthy : userQueryTruthy (some q) = true := by
    simp [userQueryTruthy, hq]
  have hn : (reset_conversation cfg st0).availableTools.isNone = false := by
    simp [reset_conversation, hts]
  have hinit : initiate_chat cfg O (reset_conversation cfg st0) k0 (some q) uh
      = Except.ok (initiateCore cfg O (reset_conversation cfg st0) k0 (some q) uh) := by
    unfold initiate_chat
    rw [hn]
    rfl
  have hK1 : firstTwoPrefix cfg (stepOp cfg O (Op.initiateChatOp (some q) uh)
      (reset_conversation cfg st0, k0)).1 := by
    unfold stepOp applyOp
    dsimp only
    rw [hinit]
    dsimp only
    obtain ⟨tail, ht⟩ := initiateCore_truthy_history cfg O (reset_conversation cfg st0)
      k0 (some q) uh htruthy
    unfold firstTwoPrefix
    rw [ht]
    exact ⟨rfl, rfl⟩
  unfold runOps
  exact firstTwoOK_of_prefix cfg _ (runOps_firstTwo cfg O ops _ hmem hK1)

/-- C8 counterexample: after a reset, invoking `execute_tool_calls` first
yields the history (system, tool): its second element is not a user
message. -/
theorem reset_then_execute_tool_calls_breaks :
    firstTwoOK cfgW ((runOps cfgW OW [Op.executeToolCallsOp respW]
      (reset_conversation cfgW freshState, 0)).1.conversationHistory) = false := rfl

/-- Witness for C8 (amended) at a concrete run. -/
theorem reset_then_appends_keep_system_user_witness :
    firstTwoOK cfgW ((runOps cfgW OW
      [Op.initiateChatOp (some "hi") true, Op.executeToolCallsOp respW,
       Op.continueOp]
      (reset_conversation cfgW stInitW, 0)).1.conversationHistory) = true :=
  reset_then_appends_keep_system_user cfgW OW [echoSchema] stInitW 0 "hi" true
    [Op.executeToolCallsOp respW, Op.continueOp] rfl (by decide) (by decide)

/-! ## C5: tool messages are keyed by the preceding assistant message -/

/-- A history without tool messages is trivially linked. -/
theorem toolLinked_of_no_tool (h : List Message)
    (hnt : ∀ m ∈ h, m.role ≠ Role.tool) : toolLinked h := by
  intro i m hi hrole
  exact absurd hrole (hnt m (List.getElem?_mem hi))

/-- `prevAssistant` at an index inside the original list ignores appends. -/
theorem prevAssistant_append (h xs : List Message) (i : Nat) (hi : i ≤ h.length) :
    prevAssistant (h ++ xs) i = prevAssistant h i := by
  unfold prevAssistant
  rw [List.take_append_of_le_length hi]

/-- Appending a non-tool message preserves the linkage invariant. -/
theorem toolLinked_append_nontool (h : List Message) (m : Message)
    (hTL : toolLinked h) (hm : m.role ≠ Role.tool) : toolLinked (h ++ [m]) := by
  intro i m' hi' hrole
  by_cases hlt : i < h.length
  · rw [List.getElem?_append_left hlt] at hi'
    obtain ⟨a, ha, htc⟩ := hTL i m' hi' hrole
    rw [prevAssistant_append h [m] i (Nat.le_of_lt hlt)]
    exact ⟨a, ha, htc⟩
  · rw [List.getElem?_append_right (Nat.le_of_not_lt hlt)] at hi'
    cases heq : i - h.length with
    | zero =>
        rw [heq] at hi'
        simp only [List.getElem?_cons_zero, Option.some.injEq] at hi'
        subst hi'
        exact absurd hrole hm
    | succ j =>
        rw [heq] at hi'
        simp at hi'

/-- The last element of a filtered list when the last element passes the
filter. -/
theorem filter_getLast_assistant (h : List Message) (a : Message)
    (hlast : h.getLast? = some a) (ha : isAssistantB a = true) :
    (h.filter isAssistantB).getLast? = some a := by
  obtain ⟨l, rfl⟩ := List.getLast?_eq_some_iff.mp hlast
  rw [List.filter_append]
  have hfa : List.filter isAssistantB [a] = [a] := by simp [ha]
  rw [hfa]
  exact List.getLast?_concat _

/-- Appending a block of tool messages all keyed by tool calls of the last
(assistant) message preserves the linkage invariant. -/
theorem toolLinked_append_block (h : List Message) (a : Message) (ms : List Message)
    (hlast : h.getLast? = some a) (harole : a.role = Role.assistant)
    (hTL : toolLinked h)
    (hblock : ∀ m ∈ ms, m.role = Role.tool ∧ ∃ tc ∈ a.toolCalls, tc.id = m.toolCallId) :
    toolLinked (h ++ ms) := by
  intro i m' hi' hrole
  by_cases hlt : i < h.length
  · rw [List.getElem?_append_left hlt] at hi'
    obtain ⟨a2, ha2, htc⟩ := hTL i m' hi' hrole
    rw [prevAssistant_append h ms i (Nat.le_of_lt hlt)]
    exact ⟨a2, ha2, htc⟩
  · have hge := Nat.le_of_not_lt hlt
    rw [List.getElem?_append_right hge] at hi'
    have hmem := List.getElem?_mem hi'
    obtain ⟨_, tc, htcmem, hid⟩ := hblock m' hmem
    refine ⟨a, ?_, tc, htcmem, hid⟩
    unfold prevAssistant
    have hsplit : i = h.length + (i - h.length) := by omega
    rw [hsplit, List.take_append, List.filter_append]
    have hfa : ((ms.take (i - h.length)).filter isAssistantB) = [] := by
      rw [List.filter_eq_nil_iff]
      intro x hx
      have hxmem : x ∈ ms := List.take_subset _ _ hx
      have hxrole := (hblock x hxmem).1
      simp [isAssistantB, hxrole]
    rw [hfa, List.append_nil]
    exact filter_getLast_assistant h a hlast (by simp [isAssistantB, harole])

/-- Unrolling one tool call of the enumerate loop. -/
theorem execLoop_cons (cfg : ChatConfig) (tools : Option (List ToolSchema))
    (net : String → String → Except String String) (i : Nat) (tc : ToolCall)
    (rest : List ToolCall) :
    execLoop cfg tools net i (tc :: rest) =
      ((execOne cfg tools net i tc).1 :: (execLoop cfg tools net (i + 1) rest).1,
       (execOne cfg tools net i tc).2.1 :: (execLoop cfg tools net (i + 1) rest).2.1,
       (execOne cfg tools net i tc).2.2 ++ (execLoop cfg tools net (i + 1) rest).2.2) :=
  rfl

/-- The history message `execOne` produces is a tool message for that call,
whatever the outcome. -/
theorem execOne_msg (cfg : ChatConfig) (tools : Option (List ToolSchema))
    (net : String → String → Except String String) (i : Nat) (tc : ToolCall) :
    ∃ content, (execOne cfg tools net i tc).2.1 = toolMessage i tc content := by
  unfold execOne
  rcases hct : call_tool cfg.mcpUrl tc.name tc.arguments tools cfg.authToken net
    with ⟨r, evs⟩
  cases r with
  | ok v => exact ⟨dumpToolResult v, rfl⟩
  | error e => exact ⟨jsonErrorContent (pyErrStr e), rfl⟩

/-- Every message appended by the enumerate loop is a tool message keyed by
the id of one of the executed calls (when they all carry ids). -/
theorem execLoop_msgs (cfg : ChatConfig) (tools : Option (List ToolSchema))
    (net : String → String → Except String String) :
    ∀ (tcs : List ToolCall) (i : Nat),
      (∀ tc ∈ tcs, tc.id.isSome = true) →
      ∀ m ∈ (execLoop cfg tools net i tcs).2.1,
        m.role = Role.tool ∧ ∃ tc ∈ tcs, tc.id = m.toolCallId := by
  intro tcs
  induction tcs with
  | nil => intro i _ m hm; simp [execLoop] at hm
  | cons tc rest ih =>
      intro i hids m hm
      rw [execLoop_cons] at hm
      rcases List.mem_cons.mp hm with hm1 | hm2
      · subst hm1
        obtain ⟨content, hc⟩ := execOne_msg cfg tools net i tc
        rw [hc]
        refine ⟨rfl, tc, List.mem_cons_self _ _, ?_⟩
        obtain ⟨s, hsid⟩ := Option.isSome_iff_exists.mp (hids tc (List.mem_cons_self _ _))
        simp [toolMessage, toolCallIdKey, hsid]
      · obtain ⟨hrole, tc2, htc2, hid2⟩ :=
          ih (i + 1) (fun t ht => hids t (List.mem_cons_of_mem _ ht)) m hm2
        exact ⟨hrole, tc2, List.mem_cons_of_mem _ htc2, hid2⟩

/-- The j-th appended message of the enumerate loop is the tool message of
the j-th call, keyed by `tool_call.get('id', f"call_i")` at absolute index. -/
theorem execLoop_get (cfg : ChatConfig) (tools : Option (List ToolSchema))
    (net : String → String → Except String String) :
    ∀ (tcs : List ToolCall) (i j : Nat) (tc : ToolCall),
      tcs[j]? = some tc →
      ∃ msg, (execLoop cfg tools net i tcs).2.1[j]? = some msg ∧
        msg.role = Role.tool ∧ msg.toolCallId = some (toolCallIdKey (i + j) tc) ∧
        msg.name = some tc.name := by
  intro tcs
  induction tcs with
  | nil => intro i j tc h; simp at h
  | cons tc0 rest ih =>
      intro i j tc h
      rw [execLoop_cons]
      cases j with
      | zero =>
          simp only [List.getElem?_cons_zero, Option.some.injEq] at h
          subst h
          obtain ⟨content, hc⟩ := execOne_msg cfg tools net i tc0
          exact ⟨toolMessage i tc0 content, by simp [hc], rfl, by simp [toolMessage], rfl⟩
      | succ j' =>
          simp only [List.getElem?_cons_succ] at h
          obtain ⟨msg, hmsg, hrole, hkey, hname⟩ := ih (i + 1) j' tc h
          refine ⟨msg, by simpa using hmsg, hrole, ?_, hname⟩
          have harith : i + 1 + j' = i + (j' + 1) := by omega
          rw [harith] at hkey
          exact hkey

/-- When the latest response carries tool calls, `execute_tool_calls`
appends exactly the enumerate loop's messages. -/
theorem execute_tool_calls_hist (cfg : ChatConfig)
    (net : String → String → Except String String) (st : ClientState)
    (resp : LLMResponse) (m : Message) (restc : List Message)
    (hch : resp.choices = m :: restc) (hne : m.toolCalls.isEmpty = false) :
    (execute_tool_calls cfg net st resp).state.conversationHistory
      = st.conversationHistory ++ (execLoop cfg st.availableTools net 0 m.toolCalls).2.1 := by
  unfold execute_tool_calls
  rw [hch]
  dsimp only
  rw [hne]
  rfl

/-- Anatomy of a successful `continue_conversation`. -/
theorem continue_conversation_ok (cfg : ChatConfig) (O : Oracle) (st : ClientState)
    (k : Nat) (c : ContinueOut)
    (h : continue_conversation cfg O st k = Except.ok c) :
    ∃ res2 m2 rest2, O.llm k = Except.ok res2 ∧ res2.choices = m2 :: rest2 ∧
      c.response = res2 ∧
      c.state = { st with conversationHistory := st.conversationHistory ++ [m2] } ∧
      c.llmCalls = k + 1 := by
  unfold continue_conversation at h
  cases hl : O.llm k with
  | error e => rw [hl] at h; simp at h
  | ok res2 =>
      rw [hl] at h
      dsimp only at h
      cases hch : res2.choices with
      | nil => rw [hch] at h; simp at h
      | cons m2 rest2 =>
          rw [hch] at h
          simp only [Except.ok.injEq] at h
          subst h
          exact ⟨res2, m2, rest2, rfl, hch, rfl, rfl, rfl⟩

/-- The Scenario A oracle conforms to the completion protocol. -/
theorem wfOW : wfOracle OW := by
  intro n res h m hm
  cases n with
  | zero =>
      have h2 : Except.ok ⟨[a1W]⟩ = Except.ok res := h
      injection h2 with h2
      subst h2
      simp only [List.mem_singleton] at hm
      subst hm
      exact ⟨rfl, by decide⟩
  | succ n2 =>
      have h2 : Except.ok ⟨[a2W]⟩ = Except.ok res := h
      injection h2 with h2
      subst h2
      simp only [List.mem_singleton] at hm
      subst hm
      exact ⟨rfl, by decide⟩

/-- The history of just the system prompt is trivially linked. -/
theorem toolLinked_system (cfg : ChatConfig) : toolLinked [systemMessage cfg] := by
  apply toolLinked_of_no_tool
  intro m hm
  simp only [List.mem_singleton] at hm
  subst hm
  simp [systemMessage]

/-- The completion phase of `initiate_chat` preserves the linkage invariant:
it appends only a user message and an assistant choice message. -/
theorem initiateCore_toolLinked (cfg : ChatConfig) (O : Oracle) (st1 : ClientState)
    (k : Nat) (uq : Option String) (uh : Bool) (hwf : wfOracle O)
    (hTL : toolLinked st1.conversationHistory) :
    toolLinked (initiateCore cfg O st1 k uq uh).state.conversationHistory := by
  have hTL2 : toolLinked (if userQueryTruthy uq = true then
      { st1 with conversationHistory := st1.conversationHistory ++ [userMessage uq] }
      else st1).conversationHistory := by
    by_cases htr : userQueryTruthy uq = true
    · rw [if_pos htr]
      exact toolLinked_append_nontool _ _ hTL (by simp [userMessage])
    · rw [if_neg htr]
      exact hTL
  unfold initiateCore
  cases hl : O.llm k with
  | error e =>
      dsimp only
      exact hTL2
  | ok res =>
      cases hch : res.choices with
      | nil =>
          dsimp only
          rw [hch]
          exact hTL2
      | cons m restc =>
          have hm := hwf k res hl m (by rw [hch]; exact List.mem_cons_self _ _)
          dsimp only
          rw [hch]
          exact toolLinked_append_nontool _ _ hTL2 (by rw [hm.1]; decide)

/-- A successful `initiate_chat` preserves the linkage invariant. -/
theorem initiate_chat_toolLinked (cfg : ChatConfig) (O : Oracle) (st : ClientState)
    (k : Nat) (uq : Option String) (uh : Bool) (outc : InitiateOut) (hwf : wfOracle O)
    (hTL : toolLinked st.conversationHistory)
    (h : initiate_chat cfg O st k uq uh = Except.ok outc) :
    toolLinked outc.state.conversationHistory := by
  unfold initiate_chat at h
  cases hn : st.availableTools.isNone with
  | false =>
      rw [hn] at h
      simp only [Bool.false_eq_true, if_false, Except.ok.injEq] at h
      subst h
      exact initiateCore_toolLinked cfg O st k uq uh hwf hTL
  | true =>
      rw [hn] at h
      simp only [if_true] at h
      cases hic : initClient cfg O st with
      | error e => rw [hic] at h; simp at h
      | ok st1 =>
          rw [hic] at h
          simp only [Except.ok.injEq] at h
          subst h
          apply initiateCore_toolLinked cfg O st1 k uq uh hwf
          obtain ⟨_, hh⟩ := initClient_shape cfg O st st1 hic
          by_cases hemp : st.conversationHistory.isEmpty = true
          · rw [hh, if_pos hemp]
            exact toolLinked_system cfg
          · rw [hh, if_neg hemp]
            exact hTL

/-- Per-step condition of the C5 runs: `execute_tool_calls` is only applied
to a response whose first choice message is the latest history entry, an
assistant message whose tool calls carry ids (the completion protocol).
This is exactly how the code base invokes it — `chat`, the WhatsApp bot and
the Streamlit front-end call it right after `initiate_chat` or
`continue_conversation` appended that message. -/
def linkGuardHead : Op → ClientState × Nat → Bool
  | .executeToolCallsOp resp, s =>
    (match resp.choices with
     | [] => true
     | m :: _ =>
         (s.1.conversationHistory.getLast? == some m) &&
         (m.role == Role.assistant) &&
         m.toolCalls.all (fun tc => tc.id.isSome))
  | _, _ => true

/-- A run is link-guarded when every `execute_tool_calls` step satisfies
`linkGuardHead` at its invocation state. -/
def linkGuard (cfg : ChatConfig) (O : Oracle) : List Op → ClientState × Nat → Bool
  | [], _ => true
  | op :: rest, s => linkGuardHead op s && linkGuard cfg O rest (stepOp cfg O op s)

/-- One link-guarded operation preserves the linkage invariant. -/
theorem stepOp_toolLinked (cfg : ChatConfig) (O : Oracle) (op : Op)
    (s : ClientState × Nat) (hwf : wfOracle O)
    (hTL : toolLinked s.1.conversationHistory)
    (hg : linkGuardHead op s = true) :
    toolLinked (stepOp cfg O op s).1.conversationHistory := by
  obtain ⟨st, k⟩ := s
  cases op with
  | initClientOp =>
      unfold stepOp applyOp
      dsimp only
      cases hic : initClient cfg O st with
      | error e => exact hTL
      | ok st1 =>
          dsimp only
          obtain ⟨_, hh⟩ := initClient_shape cfg O st st1 hic
          by_cases hemp : st.conversationHistory.isEmpty = true
          · rw [hh, if_pos hemp]
            exact toolLinked_system cfg
          · rw [hh, if_neg hemp]
            exact hTL
  | resetOp =>
      unfold stepOp applyOp reset_conversation
      dsimp only
      exact toolLinked_system cfg
  | initiateChatOp q uhh =>
      unfold stepOp applyOp
      dsimp only
      cases hinit : initiate_chat cfg O st k q uhh with
      | error e => exact hTL
      | ok outc =>
          dsimp only
          exact initiate_chat_toolLinked cfg O st k q uhh outc hwf hTL hinit
  | executeToolCallsOp resp =>
      unfold stepOp applyOp
      dsimp only
      unfold linkGuardHead at hg
      dsimp only at hg
      unfold execute_tool_calls
      cases hch : resp.choices with
      | nil => exact hTL
      | cons m rest =>
          dsimp only
          rw [hch] at hg
          dsimp only at hg
          by_cases he : m.toolCalls.isEmpty = true
          · rw [if_pos he]
            exact hTL
          · rw [if_neg he]
            show toolLinked (st.conversationHistory ++
              (execLoop cfg st.availableTools O.net 0 m.toolCalls).2.1)
            simp only [Bool.and_eq_true, beq_iff_eq, List.all_eq_true] at hg
            obtain ⟨⟨hlast, hrole⟩, hids⟩ := hg
            exact toolLinked_append_block st.conversationHistory m _ hlast hrole hTL
              (execLoop_msgs cfg st.availableTools O.net m.toolCalls 0 hids)
  | continueOp =>
      unfold stepOp applyOp
      dsimp only
      cases hc : continue_conversation cfg O st k with
      | error e => exact hTL
      | ok c =>
          dsimp only
          obtain ⟨res2, m2, rest2, hl2, hch2, _, hcstate, _⟩ :=
            continue_conversation_ok cfg O st k c hc
          have hm2 := hwf k res2 hl2 m2 (by rw [hch2]; exact List.mem_cons_self _ _)
          rw [hcstate]
          exact toolLinked_append_nontool _ _ hTL (by rw [hm2.1]; decide)

/-- A link-guarded run from a linked history stays linked. -/
theorem runOps_toolLinked (cfg : ChatConfig) (O : Oracle) (hwf : wfOracle O)
    (ops : List Op) :
    ∀ s, toolLinked s.1.conversationHistory → linkGuard cfg O ops s = true →
      toolLinked (runOps cfg O ops s).1.conversationHistory := by
  induction ops with
  | nil => intro s hTL _; exact hTL
  | cons op rest ih =>
      intro s hTL hg
      unfold linkGuard at hg
      rw [Bool.and_eq_true] at hg
      unfold runOps
      exact ih _ (stepOp_toolLinked cfg O op s hwf hTL hg.1) hg.2

/-- C5 (amended: over the histories reachable from a fresh client by
operation sequences in which `execute_tool_calls` is only applied to the
response whose first choice message was just appended as the latest history
entry — the way `chat`, the WhatsApp bot and the Streamlit front-end invoke
it — with a protocol-conformant LLM backend): every tool message is keyed by
the id of a tool call of the nearest preceding assistant message; and in
particular `execute_tool_calls` appends, for the j-th tool call of the
latest assistant message, a tool message keyed by that call's id. -/
theorem client_histories_tool_linked (cfg : ChatConfig) (O : Oracle)
    (ops : List Op) (hwf : wfOracle O)
    (hg : linkGuard cfg O ops (freshState, 0) = true) :
    toolLinked (runOps cfg O ops (freshState, 0)).1.conversationHistory ∧
    (∀ (net : String → String → Except String String) (st : ClientState)
      (resp : LLMResponse) (m : Message) (restc : List Message) (j : Nat)
      (tc : ToolCall),
      resp.choices = m :: restc → m.toolCalls[j]? = some tc →
      ∃ msg,
        (execute_tool_calls cfg net st resp).state.conversationHistory[st.conversationHistory.length + j]?
          = some msg ∧
        msg.role = Role.tool ∧ msg.toolCallId = some (toolCallIdKey j tc) ∧
        msg.name = some tc.name) := by
  constructor
  · exact runOps_toolLinked cfg O hwf ops (freshState, 0)
      (toolLinked_of_no_tool _ (by intro m hm; simp [freshState] at hm)) hg
  · intro net st resp m restc j tc hch hj
    have hne : m.toolCalls.isEmpty = false := by
      cases hmt : m.toolCalls with
      | nil => rw [hmt] at hj; simp at hj
      | cons a b => rfl
    rw [execute_tool_calls_hist cfg net st resp m restc hch hne]
    obtain ⟨msg, hmsg, hrole, hkey, hname⟩ :=
      execLoop_get cfg st.availableTools net m.toolCalls 0 j tc hj
    refine ⟨msg, ?_, hrole, ?_, hname⟩
    · rw [List.getElem?_append_right (Nat.le_add_right _ _)]
      have harith : st.conversationHistory.length + j - st.conversationHistory.length
          = j := by omega
      rw [harith]
      exact hmsg
    · rw [Nat.zero_add] at hkey
      exact hkey

/-- C5 counterexample: `execute_tool_calls` applied on a freshly constructed
client yields a reachable history consisting of a single tool message with
no preceding assistant message at all, so the invariant fails on the
unrestricted set of reachable histories. -/
theorem fresh_execute_tool_calls_unlinked :
    ¬ toolLinked (runOps cfgW OW [Op.executeToolCallsOp respW]
      (freshState, 0)).1.conversationHistory := by
  intro hTL
  obtain ⟨a, ha, -⟩ := hTL 0 _ rfl rfl
  simp [prevAssistant] at ha

/-- Operation sequence of the Scenario A flow as the WhatsApp front-end
drives it: initiate, execute the returned tool call, continue. -/
def opsA : List Op :=
  [Op.initiateChatOp (some "use echo") true, Op.executeToolCallsOp respW,
   Op.continueOp]

/-- Witness for C5 (amended) at the concrete link-guarded Scenario A
sequence. -/
theorem client_histories_tool_linked_witness :
    toolLinked (runOps cfgW OW opsA (freshState, 0)).1.conversationHistory :=
  (client_histories_tool_linked cfgW OW opsA wfOW rfl).1

end GreekRoom
